import Mathlib

/-!
Verification of the `silva` gradient-boosted tree library.

Shallow embedding conventions:
* `f64` values that the program stores (thresholds, leaf values, base values)
  are modelled as `ℚ`; a feature-vector entry is an `Option ℚ`, with `none`
  modelling a NaN (the one place NaN can flow in at prediction time).
* Rust panics are modelled as `Option.none` results (`Tree.from_nodes` on an
  empty vector, unwraps inside `predict`, out-of-range indexing) or, inside
  `predict`, as a distinguished `Except.error` tagged by the panic site, so
  that the distinct failure conditions of the spec stay distinct.
* The `while` loop of `Tree::predict` is modelled with an explicit fuel
  parameter; a `none` result at a given fuel means the loop has not finished
  within that many iterations (the loop can run forever only on a cyclic
  node graph).
* `FxIndexMap` (an insertion-ordered map) is modelled as an association list
  with insert-or-replace-in-place semantics; `get` is first-match lookup.
-/

namespace Silva

/-- `TreeNode` from `tree.rs`: id, split feature index, split threshold,
optional child ids and leaf value.  `NotNan<f64>` fields are `ℚ`. -/
structure TreeNode where
  id : Nat
  split_index : Nat
  split_condition : ℚ
  left : Option Nat
  right : Option Nat
  value : ℚ
  deriving Repr, DecidableEq, Inhabited

/-- `TreeNode::is_leaf`: both children absent. -/
def TreeNode.is_leaf (n : TreeNode) : Bool :=
  n.left.isNone && n.right.isNone

/-- `TreeNode::get_value`. -/
def TreeNode.get_value (n : TreeNode) : ℚ := n.value

/-- The node container of a `Tree`: `FxIndexMap<usize, TreeNode>` modelled as
an insertion-ordered association list. -/
abbrev NodeMap : Type := List (Nat × TreeNode)

/-- `IndexMap::get`: lookup by key (keys are unique, so first match). -/
def NodeMap.get (m : NodeMap) (k : Nat) : Option TreeNode :=
  (List.find? (fun p => p.1 = k) m).map Prod.snd

/-- `IndexMap::insert`: replace in place when the key is present, append
otherwise. -/
def NodeMap.insert (m : NodeMap) (k : Nat) (v : TreeNode) : NodeMap :=
  if m.any (fun p => p.1 = k) then
    m.map (fun p => if p.1 = k then (k, v) else p)
  else
    m ++ [(k, v)]

/-- `collect()` of an iterator of pairs into an `FxIndexMap`. -/
def NodeMap.ofList (l : List (Nat × TreeNode)) : NodeMap :=
  l.foldl (fun m p => m.insert p.1 p.2) ([] : List (Nat × TreeNode))

/-- Number of entries of the map. -/
def NodeMap.size (m : NodeMap) : Nat := m.length

/-- `Tree` from `tree.rs`: node map plus root id. -/
structure Tree where
  node_map : NodeMap
  root : Nat
  deriving DecidableEq, Inhabited

/-- `Tree::new`. -/
def Tree.new (node_map : NodeMap) (root : Nat) : Tree := ⟨node_map, root⟩

/-- Insert a node into a list sorted by `id`, keeping equal keys in their
original relative order (Rust `sort_by_key` is stable). -/
def insertByKey (n : TreeNode) : List TreeNode → List TreeNode
  | [] => [n]
  | m :: ms => if n.id < m.id then n :: m :: ms else m :: insertByKey n ms

/-- Stable sort of the node list by `id` (`nodes.sort_by_key(|node| node.id)`). -/
def sortByKey (l : List TreeNode) : List TreeNode :=
  l.foldr insertByKey []

/-- `Tree::from_nodes`: sort by id, take the first node's id as root, collect
into the map.  Indexing `nodes[0]` on an empty vector panics in the source;
the panic is modelled as `none`. -/
def Tree.from_nodes (nodes : List TreeNode) : Option Tree :=
  match sortByKey nodes with
  | [] => none
  | n :: rest =>
      some (Tree.new (NodeMap.ofList ((n :: rest).map (fun m => (m.id, m)))) n.id)

/-- The distinct failure conditions of `Tree::predict`, one per panic site:
`invalidInput` for `NotNan::new(x[..]).unwrap()` on a NaN feature,
`corruptModel` for the `unwrap` of a missing node (absent child id, child id
not in the map, or root not in the map), `invalidFeatureIndex` for the
out-of-range slice access `x[node.split_index]`. -/
inductive PredictError where
  | invalidInput
  | corruptModel
  | invalidFeatureIndex
  deriving Repr, DecidableEq

instance {ε α : Type} [DecidableEq ε] [DecidableEq α] : DecidableEq (Except ε α) :=
  fun a b =>
    match a, b with
    | Except.ok x, Except.ok y => decidable_of_iff (x = y) (by simp)
    | Except.error x, Except.error y => decidable_of_iff (x = y) (by simp)
    | Except.ok _, Except.error _ => isFalse (by simp)
    | Except.error _, Except.ok _ => isFalse (by simp)

/-- The loop body of `Tree::predict`, with explicit fuel.  A `none` result
means the loop did not reach a leaf within `fuel` iterations. -/
def Tree.predictAux (t : Tree) (x : List (Option ℚ)) :
    Nat → TreeNode → Option (Except PredictError ℚ)
  | 0, _ => none
  | fuel + 1, node =>
    if node.is_leaf then some (Except.ok node.get_value)
    else
      match x.get? node.split_index with
      | none => some (Except.error PredictError.invalidFeatureIndex)
      | some none => some (Except.error PredictError.invalidInput)
      | some (some feature) =>
        match (if feature < node.split_condition then node.left else node.right).bind
            (fun id => t.node_map.get id) with
        | none => some (Except.error PredictError.corruptModel)
        | some next => Tree.predictAux t x fuel next

/-- `Tree::predict`: look up the root (its `unwrap` panics when the root id is
not in the map) and run the traversal loop. -/
def Tree.predict (t : Tree) (x : List (Option ℚ)) (fuel : Nat) :
    Option (Except PredictError ℚ) :=
  match t.node_map.get t.root with
  | none => some (Except.error PredictError.corruptModel)
  | some node => Tree.predictAux t x fuel node

/-- `Forest` from `forest.rs`. -/
structure Forest where
  base_value : ℚ
  trees : List Tree
  deriving DecidableEq, Inhabited

/-- `Forest::new`. -/
def Forest.new (base_value : ℚ) (trees : List Tree) : Forest := ⟨base_value, trees⟩

/-- Collect `tree.predict(x)` over a list of trees in order, propagating the
first panic (the `collect` in `Forest::predict`). -/
def predictTrees (x : List (Option ℚ)) (fuel : Nat) :
    List Tree → Option (Except PredictError (List ℚ))
  | [] => some (Except.ok [])
  | t :: ts =>
    match t.predict x fuel with
    | none => none
    | some (Except.error e) => some (Except.error e)
    | some (Except.ok v) =>
      match predictTrees x fuel ts with
      | none => none
      | some (Except.error e) => some (Except.error e)
      | some (Except.ok vs) => some (Except.ok (v :: vs))

/-- `Forest::predict`: base value plus the sum of the per-tree predictions,
summed in sequence order. -/
def Forest.predict (f : Forest) (x : List (Option ℚ)) (fuel : Nat) :
    Option (Except PredictError ℚ) :=
  match predictTrees x fuel f.trees with
  | none => none
  | some (Except.error e) => some (Except.error e)
  | some (Except.ok preds) =>
      some (Except.ok (f.base_value + preds.foldl (· + ·) 0))

/-- Modelled from the spec: `MultiOutputForest` (its defining module is not in
the sources; only its callers are).  Per §3 it is an ordered sequence of
`Forest`, built once via `MultiOutputForest::new(forests)`. -/
structure MultiOutputForest where
  forests : List Forest
  deriving DecidableEq, Inhabited

/-- Modelled from the spec: `MultiOutputForest::new`. -/
def MultiOutputForest.new (forests : List Forest) : MultiOutputForest := ⟨forests⟩

/-! ## Format A importer (`parser/xgboost.rs`) -/

/-- Rust `as usize` on an `i32`/`i64` value: wrap modulo `2^64`. -/
def intToUsize (i : Int) : Nat := (i % (2 : Int) ^ 64).toNat

/-- The fields of `TreeRecord` consumed by `TreeRecord::parse` (the remaining
parallel arrays — `loss_changes`, `sum_hessian`, `parents`, the categorical
arrays and `tree_param` — are never read by it). -/
structure TreeRecord where
  base_weights : List ℚ
  left_children : List Int
  right_children : List Int
  split_indices : List Int
  split_conditions : List ℚ
  deriving DecidableEq, Inhabited

/-- `izip!` over five vectors: truncates to the shortest. -/
def zip5 {α β γ δ ε : Type} :
    List α → List β → List γ → List δ → List ε → List (α × β × γ × δ × ε)
  | a :: as, b :: bs, c :: cs, d :: ds, e :: es =>
      (a, b, c, d, e) :: zip5 as bs cs ds es
  | _, _, _, _, _ => []

/-- `TreeRecord::parse`: nodes are built positionally (id = position); a
child entry is a present reference exactly when it is `> 0`; both the split
condition and the node value are taken from `split_conditions` (the zipped
`base_weights` entry is bound but discarded, as in the source).  The
`NotNan::new(..).unwrap()` cannot fail here in the model because a JSON
number is never NaN.  The final `Tree::from_nodes` panics on an empty node
list; `none` models that panic.  `xgbNode` is the loop body (one node from
one zipped-and-enumerated tuple), `xgbNodes` the node vector it builds. -/
def xgbNode (p : Nat × (ℚ × Int × Int × Int × ℚ)) : TreeNode :=
  let i := p.1
  let left := p.2.2.1
  let right := p.2.2.2.1
  let split_index := p.2.2.2.2.1
  let split_condition := p.2.2.2.2.2
  { id := i
    split_index := intToUsize split_index
    split_condition := split_condition
    left := if left > 0 then some (intToUsize left) else none
    right := if right > 0 then some (intToUsize right) else none
    value := split_condition }

/-- The node vector built by the loop of `TreeRecord::parse`. -/
def xgbNodes (r : TreeRecord) : List TreeNode :=
  (zip5 r.base_weights r.left_children r.right_children r.split_indices
      r.split_conditions).enum.map xgbNode

def TreeRecord.parse (r : TreeRecord) : Option Tree :=
  Tree.from_nodes (xgbNodes r)

/-! ## Format B importer (`parser/lightgbm.rs`) -/

/-- Rust `collect::<Option<Vec<_>>>` over a mapped iterator: all-or-nothing
collection, short-circuiting on the first `None`. -/
def collectOpt {α β : Type} (f : α → Option β) : List α → Option (List β)
  | [] => some []
  | a :: l =>
    match f a, collectOpt f l with
    | some b, some bs => some (b :: bs)
    | _, _ => none

/-- `LGBMTreeRecord`. -/
structure LGBMTreeRecord where
  split_features : List Nat
  thresholds : List ℚ
  left_children : List Int
  right_children : List Int
  leaf_values : List ℚ
  deriving DecidableEq, Inhabited

/-- Child-id resolution in `From<LGBMTreeRecord> for Tree`: `c ≥ 0` is an
internal child at id `c`; `c < 0` is the leaf child at id
`num_internal + ((-c) - 1)` (`as usize` casts modelled by `intToUsize`). -/
def lgbmChildId (numInternal : Nat) (c : Int) : Nat :=
  if c ≥ 0 then intToUsize c else numInternal + (intToUsize (-c) - 1)

/-- The node list built by `From<LGBMTreeRecord> for Tree` before
`Tree::from_nodes`: one internal node per `split_features` position, then one
leaf node per `leaf_values` entry at ids `num_internal + j`.  The source
indexes `left_children[i]`, `right_children[i]` and `thresholds[i]` without a
bounds check, so a record whose arrays are shorter than `split_features`
panics; `none` models that panic. -/
def lgbmNodes (r : LGBMTreeRecord) : Option (List TreeNode) :=
  match collectOpt
      (fun i =>
        match r.left_children.get? i, r.right_children.get? i,
            r.thresholds.get? i, r.split_features.get? i with
        | some lc, some rc, some th, some sf =>
            some { id := i
                   split_index := sf
                   split_condition := th
                   left := some (lgbmChildId r.split_features.length lc)
                   right := some (lgbmChildId r.split_features.length rc)
                   value := 0 : TreeNode }
        | _, _, _, _ => none)
      (List.range r.split_features.length) with
  | none => none
  | some internals =>
      some (internals ++ r.leaf_values.enum.map
        (fun p =>
          { id := r.split_features.length + p.1
            split_index := 0
            split_condition := 0
            left := none
            right := none
            value := p.2 : TreeNode }))

/-- `From<LGBMTreeRecord> for Tree` (`Tree::from`); `none` models a panic
(either an out-of-range array access or `from_nodes` on an empty list). -/
def lgbmTreeFrom (r : LGBMTreeRecord) : Option Tree :=
  (lgbmNodes r).bind Tree.from_nodes

/-- A Rust `&str`, modelled as its character list (Lean `String` primitives
do not reduce well in proofs; a character list is the same data). -/
abbrev RStr : Type := List Char

/-- Rust `str::trim`: drop leading and trailing whitespace. -/
def trimR (cs : RStr) : RStr :=
  ((cs.dropWhile Char.isWhitespace).reverse.dropWhile Char.isWhitespace).reverse

/-- Rust `str::starts_with`. -/
def startsWithR (cs pre : RStr) : Bool := List.isPrefixOf pre cs

/-- Rust `str::split_once('=')`: split at the first `=`. -/
def splitOnceEq : RStr → Option (RStr × RStr)
  | [] => none
  | a :: rest =>
    if a = '=' then some ([], rest)
    else (splitOnceEq rest).map (fun p => (a :: p.1, p.2))

/-- Rust `str::split_whitespace`: whitespace-separated non-empty tokens. -/
def splitWs (s : RStr) : List RStr :=
  (s.splitOnP Char.isWhitespace).filter (fun t => t ≠ [])

/-- Digits-only string to a number (helper for the numeric-literal models). -/
def digitsToNat (cs : List Char) : Option Nat :=
  if cs = [] then none
  else if cs.all Char.isDigit then
    some (cs.foldl (fun n c => n * 10 + (c.toNat - 48)) 0)
  else none

/-- Models Rust `str::parse::<f64>` on the plain decimal fragment of its
grammar (optional minus sign, digits, optional fractional part); tokens
outside this fragment (exponents, `inf`, `nan`, a leading `+`) are treated as
parse failures, and every concrete token appearing in a theorem below is in
the fragment, where this model agrees with Rust exactly. -/
def parseFloat (s : RStr) : Option ℚ :=
  let signed : Bool × List Char :=
    match s with
    | '-' :: rest => (true, rest)
    | cs => (false, cs)
  let mag : Option ℚ :=
    match signed.2.splitOn '.' with
    | [intPart] => (digitsToNat intPart).map (fun n => (n : ℚ))
    | [intPart, fracPart] =>
        match digitsToNat intPart, digitsToNat fracPart with
        | some n, some f =>
            some ((n : ℚ) + (f : ℚ) / (10 : ℚ) ^ fracPart.length)
        | _, _ => none
    | _ => none
  mag.map (fun q => if signed.1 then -q else q)

/-- Models Rust `str::parse::<usize>` (digits; overflow and a leading `+`
are out of the modelled fragment). -/
def parseUsize (s : RStr) : Option Nat := digitsToNat s

/-- Models Rust `str::parse::<i32>` on the in-range fragment. -/
def parseI32 (s : RStr) : Option Int :=
  match s with
  | '-' :: rest => (digitsToNat rest).map (fun n => -(n : Int))
  | cs => (digitsToNat cs).map (fun n => (n : Int))

/-- Whitespace-separated numeric array parse used by the five directives
(`value.split_whitespace().map(|s| s.parse().ok()).collect::<Option<Vec<_>>>()`). -/
def parseArrNat (v : RStr) : Option (List Nat) := collectOpt parseUsize (splitWs v)

def parseArrInt (v : RStr) : Option (List Int) := collectOpt parseI32 (splitWs v)

def parseArrFloat (v : RStr) : Option (List ℚ) := collectOpt parseFloat (splitWs v)

/-- The five mutable `Option` locals of `parse_tree_section`. -/
structure SectionAcc where
  split_features : Option (List Nat)
  thresholds : Option (List ℚ)
  left_children : Option (List Int)
  right_children : Option (List Int)
  leaf_values : Option (List ℚ)
  deriving DecidableEq, Inhabited

/-- The `while` loop of `parse_tree_section`: walk lines until a blank line
or the next `Tree=` header, recording each recognized directive; a failed
array parse aborts the whole section parse (`none`, the `?` in the source). -/
def sectionLoop : List RStr → SectionAcc → Option SectionAcc
  | [], acc => some acc
  | line :: rest, acc =>
    let l := trimR line
    if l = [] || startsWithR l "Tree=".data then some acc
    else
      match splitOnceEq l with
      | none => sectionLoop rest acc
      | some kv =>
        if kv.1 = "split_feature".data then
          match parseArrNat kv.2 with
          | none => none
          | some a => sectionLoop rest { acc with split_features := some a }
        else if kv.1 = "threshold".data then
          match parseArrFloat kv.2 with
          | none => none
          | some a => sectionLoop rest { acc with thresholds := some a }
        else if kv.1 = "left_child".data then
          match parseArrInt kv.2 with
          | none => none
          | some a => sectionLoop rest { acc with left_children := some a }
        else if kv.1 = "right_child".data then
          match parseArrInt kv.2 with
          | none => none
          | some a => sectionLoop rest { acc with right_children := some a }
        else if kv.1 = "leaf_value".data then
          match parseArrFloat kv.2 with
          | none => none
          | some a => sectionLoop rest { acc with leaf_values := some a }
        else sectionLoop rest acc

/-- `parse_tree_section(lines, start_idx)`: scan the section body, then
require all five directives (the trailing `?`s in the struct literal). -/
def parseTreeSection (lines : List RStr) (startIdx : Nat) : Option LGBMTreeRecord :=
  match sectionLoop (lines.drop (startIdx + 1)) ⟨none, none, none, none, none⟩ with
  | none => none
  | some acc =>
    match acc.split_features, acc.thresholds, acc.left_children,
        acc.right_children, acc.leaf_values with
    | some sf, some th, some lc, some rc, some lv => some ⟨sf, th, lc, rc, lv⟩
    | _, _, _, _, _ => none

/-- The `anyhow` failures `read_lightgbm_txt` can raise once the file is in
memory: a `num_tree_per_iteration` value that fails to parse (the `?` on
`value.parse()`), or a missing `num_tree_per_iteration` directive. -/
inductive LGBMErr where
  | numTreeParseFailed
  | missingNumTree
  deriving DecidableEq, Repr

/-- One iteration of the line scan in `read_lightgbm_txt`. -/
def scanStep (lines : List RStr) (acc : List LGBMTreeRecord × Option Nat)
    (p : Nat × RStr) : Except LGBMErr (List LGBMTreeRecord × Option Nat) :=
  let l := trimR p.2
  if l = [] then Except.ok acc
  else if startsWithR l "Tree=".data then
    match parseTreeSection lines p.1 with
    | some record => Except.ok (acc.1 ++ [record], acc.2)
    | none => Except.ok acc
  else
    match splitOnceEq l with
    | some kv =>
      if kv.1 = "num_tree_per_iteration".data then
        match parseUsize kv.2 with
        | some n => Except.ok (acc.1, some n)
        | none => Except.error LGBMErr.numTreeParseFailed
      else Except.ok acc
    | none => Except.ok acc

/-- The full line scan of `read_lightgbm_txt`. -/
def scanLoop (lines : List RStr) : Except LGBMErr (List LGBMTreeRecord × Option Nat) :=
  lines.enum.foldlM (scanStep lines) ([], none)

/-- The grouping loops of `read_lightgbm_txt`: `num_iterations` is the floor
quotient, record `i * numTrees + j` goes to group `j`. -/
def groupRecords (records : List LGBMTreeRecord) (numTrees : Nat) :
    List (List LGBMTreeRecord) :=
  let numIterations := records.length / numTrees
  (List.range numTrees).map
    (fun j => (List.range numIterations).map
      (fun i => records.getD (i * numTrees + j) default))

/-- `read_lightgbm_txt` from the already-split lines of the file: scan,
require `num_tree_per_iteration`, group.  The inner `Option` models panics:
`numTrees = 0` makes `tree_records.len() / num_trees` panic in the source. -/
def read_lightgbm_txt (lines : List RStr) :
    Except LGBMErr (Option (List (List LGBMTreeRecord))) :=
  match scanLoop lines with
  | Except.error e => Except.error e
  | Except.ok (records, numOpt) =>
    match numOpt with
    | none => Except.error LGBMErr.missingNumTree
    | some numTrees =>
      if numTrees = 0 then Except.ok none
      else Except.ok (some (groupRecords records numTrees))

/-- `read_lightgbm_model`: each record group becomes a `Forest` with base
value `0.0`; the groups in order form the `MultiOutputForest`.  The inner
`Option` models panics raised while converting records to trees. -/
def read_lightgbm_model (lines : List RStr) :
    Except LGBMErr (Option MultiOutputForest) :=
  match read_lightgbm_txt lines with
  | Except.error e => Except.error e
  | Except.ok none => Except.ok none
  | Except.ok (some recordGroups) =>
    match collectOpt (fun group => collectOpt lgbmTreeFrom group) recordGroups with
    | none => Except.ok none
    | some treeGroups =>
        Except.ok (some (MultiOutputForest.new
          (treeGroups.map (fun ts => Forest.new 0 ts))))

/-! ## Concrete instances used by the theorems -/

/-- Tree 1 of the end-to-end example (§8 of the spec, `forest.rs` test):
splits feature 0 at 5.0, then feature 1 at 3.0 (left) / 2.0 (right), with
leaves 3, 4, 5, 6. -/
def exampleTree1 : Tree :=
  Tree.new
    [(0, ⟨0, 0, 5, some 1, some 2, 0⟩),
     (1, ⟨1, 1, 3, some 3, some 4, 0⟩),
     (2, ⟨2, 1, 2, some 5, some 6, 0⟩),
     (3, ⟨3, 0, 0, none, none, 3⟩),
     (4, ⟨4, 0, 0, none, none, 4⟩),
     (5, ⟨5, 0, 0, none, none, 5⟩),
     (6, ⟨6, 0, 0, none, none, 6⟩)]
    0

/-- Tree 2 of the end-to-end example: splits feature 0 at 5.0 with
leaves 10, 20. -/
def exampleTree2 : Tree :=
  Tree.new
    [(0, ⟨0, 0, 5, some 1, some 2, 0⟩),
     (1, ⟨1, 0, 2, none, none, 10⟩),
     (2, ⟨2, 0, 3, none, none, 20⟩)]
    0

/-- The two-tree ensemble of the end-to-end example, base value 100.0. -/
def exampleForest : Forest := Forest.new 100 [exampleTree1, exampleTree2]

/-! ## Theorems -/

/-- Collecting per-tree predictions succeeds and returns exactly the given
values when every tree's prediction succeeds with those values, in order. -/
theorem predictTrees_of_forall₂ (x : List (Option ℚ)) (fuel : Nat) :
    ∀ {ts : List Tree} {vs : List ℚ},
      List.Forall₂ (fun t v => Tree.predict t x fuel = some (Except.ok v)) ts vs →
      predictTrees x fuel ts = some (Except.ok vs) := by
  intro ts vs h
  induction h with
  | nil => rfl
  | cons h₁ _ ih => simp [predictTrees, h₁, ih]

/-- C1: `Forest.predict` is the base value plus the sum of `Tree.predict`
over the trees in sequence order, and on the end-to-end two-tree ensemble
with base value 100.0 it predicts 113.0, 114.0, 125.0 and 126.0 for the four
spec inputs.  The final conjunct exercises a threshold tie
(feature 0 = threshold 5.0): the traversal goes right, as `<` is strict. -/
theorem forest_predict_is_base_plus_sum :
    (∀ (f : Forest) (x : List (Option ℚ)) (fuel : Nat) (vs : List ℚ),
      List.Forall₂ (fun t v => Tree.predict t x fuel = some (Except.ok v)) f.trees vs →
      f.predict x fuel = some (Except.ok (f.base_value + vs.foldl (· + ·) 0))) ∧
    exampleForest.predict [some 4, some 2] 10 = some (Except.ok 113) ∧
    exampleForest.predict [some 4, some 4] 10 = some (Except.ok 114) ∧
    exampleForest.predict [some 6, some 1] 10 = some (Except.ok 125) ∧
    exampleForest.predict [some 6, some 3] 10 = some (Except.ok 126) ∧
    exampleForest.predict [some 5, some 3] 10 = some (Except.ok 126) := by
  refine ⟨?_, ?_, ?_, ?_, ?_, ?_⟩
  · intro f x fuel vs h
    simp [Forest.predict, predictTrees_of_forall₂ x fuel h]
  all_goals
    norm_num [Forest.predict, predictTrees, Tree.predict, Tree.predictAux, NodeMap.get,
      exampleForest, exampleTree1, exampleTree2, Tree.new, Forest.new, TreeNode.is_leaf,
      TreeNode.get_value, List.find?]

/-- Witness for C1: the sum form instantiated on the example ensemble at
`[4.0, 2.0]`, whose trees predict 3.0 and 10.0. -/
theorem forest_predict_is_base_plus_sum_witness :
    exampleForest.predict [some 4, some 2] 10 =
      some (Except.ok (exampleForest.base_value + ([3, 10] : List ℚ).foldl (· + ·) 0)) :=
  forest_predict_is_base_plus_sum.1 exampleForest [some 4, some 2] 10 [3, 10]
    (List.Forall₂.cons
      (by norm_num [Tree.predict, Tree.predictAux, NodeMap.get, exampleForest,
        exampleTree1, Tree.new, Forest.new, TreeNode.is_leaf, TreeNode.get_value, List.find?])
      (List.Forall₂.cons
        (by norm_num [Tree.predict, Tree.predictAux, NodeMap.get, exampleForest,
          exampleTree2, Tree.new, Forest.new, TreeNode.is_leaf, TreeNode.get_value, List.find?])
        List.Forall₂.nil))

/-- C2: at an internal node of the traversal loop, a NaN feature value fails
with the invalid-input condition (it never navigates a branch), a chosen
child that is absent or not in the node map fails with the corrupt-model
condition, and the two conditions are distinct values of `PredictError`. -/
theorem tree_predict_error_conditions :
    (∀ (t : Tree) (x : List (Option ℚ)) (fuel : Nat) (n : TreeNode),
      n.is_leaf = false → x.get? n.split_index = some none →
      Tree.predictAux t x (fuel + 1) n = some (Except.error PredictError.invalidInput)) ∧
    (∀ (t : Tree) (x : List (Option ℚ)) (fuel : Nat) (n : TreeNode) (q : ℚ),
      n.is_leaf = false → x.get? n.split_index = some (some q) →
      (if q < n.split_condition then n.left else n.right).bind
        (fun c => t.node_map.get c) = none →
      Tree.predictAux t x (fuel + 1) n = some (Except.error PredictError.corruptModel)) ∧
    PredictError.invalidInput ≠ PredictError.corruptModel := by
  refine ⟨?_, ?_, by decide⟩
  · intro t x fuel n hleaf hnan
    rw [List.get?_eq_getElem?] at hnan
    simp [Tree.predictAux, hleaf, hnan]
  · intro t x fuel n q hleaf hq hmiss
    rw [List.get?_eq_getElem?] at hq
    simp [Tree.predictAux, hleaf, hq, hmiss]

/-- Witness for C2: a NaN feature at the example root fails invalid-input; a
root whose chosen child id 99 is not in the map fails corrupt-model. -/
theorem tree_predict_error_conditions_witness :
    Tree.predictAux exampleTree2 [none] (0 + 1) ⟨0, 0, 5, some 1, some 2, 0⟩ =
      some (Except.error PredictError.invalidInput) ∧
    Tree.predictAux exampleTree2 [some 1] (0 + 1) ⟨0, 0, 5, some 99, some 98, 0⟩ =
      some (Except.error PredictError.corruptModel) :=
  ⟨tree_predict_error_conditions.1 exampleTree2 [none] 0 _ (by decide) (by decide),
   tree_predict_error_conditions.2.1 exampleTree2 [some 1] 0 _ 1 (by decide) (by decide)
     (by decide)⟩

/-! ## Validity of a tree (the §3 invariants) and termination of `predict` -/

/-- One traversal step: node `a` is in the map, is internal, and `b` is one
of its child ids. -/
def Step (t : Tree) (a b : Nat) : Prop :=
  ∃ n, t.node_map.get a = some n ∧ n.is_leaf = false ∧
    (n.left = some b ∨ n.right = some b)

/-- Reachability along child references. -/
def Reaches (t : Tree) : Nat → Nat → Prop := Relation.ReflTransGen (Step t)

/-- Every internal node has both children present as keys of the map (§3:
children exist as keys, and a node with exactly one child must not occur). -/
def ChildrenPresent (t : Tree) : Prop :=
  ∀ i n, t.node_map.get i = some n → n.is_leaf = false →
    ∃ l r nl nr, n.left = some l ∧ n.right = some r ∧
      t.node_map.get l = some nl ∧ t.node_map.get r = some nr

/-- The §3 `Tree` invariants: non-empty map, children present, the part
reachable from the root acyclic, and every node reachable from the root. -/
def ValidTree (t : Tree) : Prop :=
  t.node_map ≠ [] ∧ ChildrenPresent t ∧
  (∀ a, Reaches t t.root a → ¬ Relation.TransGen (Step t) a a) ∧
  (∀ i n, t.node_map.get i = some n → Reaches t t.root i)

/-- The feature entries the traversal can consult (those of reachable
internal nodes) exist and are not NaN. -/
def FeatureOk (t : Tree) (x : List (Option ℚ)) : Prop :=
  ∀ i n, Reaches t t.root i → t.node_map.get i = some n → n.is_leaf = false →
    ∃ q, x.get? n.split_index = some (some q)

/-- The keys of the node map, as a set. -/
def keySet (t : Tree) : Set Nat := {k | ∃ n, t.node_map.get k = some n}

/-- Ids reachable from `a`. -/
def ReachSet (t : Tree) (a : Nat) : Set Nat := {b | Reaches t a b}

theorem NodeMap.get_mem {m : NodeMap} {k : Nat} {n : TreeNode}
    (h : m.get k = some n) : (k, n) ∈ m := by
  unfold NodeMap.get at h
  obtain ⟨p, hp, hpn⟩ := Option.map_eq_some'.mp h
  have hk : p.1 = k := by simpa using List.find?_some hp
  have := List.mem_of_find?_eq_some hp
  rw [← hk, ← hpn] at *
  simpa using this

theorem keySet_finite (t : Tree) : (keySet t).Finite := by
  apply Set.Finite.subset (t.node_map.map Prod.fst).toFinset.finite_toSet
  rintro k ⟨n, hn⟩
  have : k ∈ t.node_map.map Prod.fst :=
    List.mem_map.mpr ⟨(k, n), NodeMap.get_mem hn, rfl⟩
  simpa using this

theorem keySet_ncard_le (t : Tree) : (keySet t).ncard ≤ t.node_map.size := by
  have h₁ : keySet t ⊆ ((t.node_map.map Prod.fst).toFinset : Set Nat) := by
    rintro k ⟨n, hn⟩
    have : k ∈ t.node_map.map Prod.fst :=
      List.mem_map.mpr ⟨(k, n), NodeMap.get_mem hn, rfl⟩
    simpa using this
  calc (keySet t).ncard
      ≤ (((t.node_map.map Prod.fst).toFinset : Finset Nat) : Set Nat).ncard :=
        Set.ncard_le_ncard h₁ (Finset.finite_toSet _)
    _ = (t.node_map.map Prod.fst).toFinset.card := Set.ncard_coe_Finset _
    _ ≤ (t.node_map.map Prod.fst).length := List.toFinset_card_le _
    _ = t.node_map.size := by simp [NodeMap.size]

theorem step_target_mem {t : Tree} (hcp : ChildrenPresent t) {a b : Nat}
    (h : Step t a b) : b ∈ keySet t := by
  obtain ⟨n, hget, hleaf, hor⟩ := h
  obtain ⟨l, r, nl, nr, hL, hR, hnl, hnr⟩ := hcp a n hget hleaf
  rcases hor with hb | hb
  · have hlb : l = b := Option.some_inj.mp (hL.symm.trans hb)
    exact ⟨nl, hlb ▸ hnl⟩
  · have hrb : r = b := Option.some_inj.mp (hR.symm.trans hb)
    exact ⟨nr, hrb ▸ hnr⟩

theorem reachSet_subset_keySet {t : Tree} (hcp : ChildrenPresent t) {a : Nat}
    (ha : a ∈ keySet t) : ReachSet t a ⊆ keySet t := by
  intro b hb
  induction hb with
  | refl => exact ha
  | tail _ hstep _ => exact step_target_mem hcp hstep

/-- The traversal loop reaches a leaf and returns its value, given enough
fuel, on a valid tree whose consulted features are present and non-NaN. -/
theorem predictAux_reaches_leaf {t : Tree} {x : List (Option ℚ)}
    (hv : ValidTree t) (hx : FeatureOk t x) :
    ∀ (fuel : Nat) (a : Nat) (n : TreeNode), t.node_map.get a = some n →
      Reaches t t.root a → (ReachSet t a).ncard < fuel →
      ∃ v, Tree.predictAux t x fuel n = some (Except.ok v) ∧
        ∃ j m, t.node_map.get j = some m ∧ m.is_leaf = true ∧ m.get_value = v := by
  obtain ⟨-, hcp, hacyc, -⟩ := hv
  intro fuel
  induction fuel with
  | zero => intro a n _ _ h; exact absurd h (Nat.not_lt_zero _)
  | succ fm ih =>
    intro a n hget hreach hcard
    by_cases hleaf : n.is_leaf = true
    · exact ⟨n.get_value, by simp [Tree.predictAux, hleaf], a, n, hget, hleaf, rfl⟩
    have hleaf' : n.is_leaf = false := by simpa using hleaf
    obtain ⟨q, hq⟩ := hx a n hreach hget hleaf'
    rw [List.get?_eq_getElem?] at hq
    obtain ⟨l, r, nl, nr, hL, hR, hnl, hnr⟩ := hcp a n hget hleaf'
    have hfin : (ReachSet t a).Finite :=
      (keySet_finite t).subset (reachSet_subset_keySet hcp ⟨n, hget⟩)
    have hgo : ∀ c nc, (n.left = some c ∨ n.right = some c) →
        t.node_map.get c = some nc →
        ∃ v, Tree.predictAux t x fm nc = some (Except.ok v) ∧
          ∃ j m, t.node_map.get j = some m ∧ m.is_leaf = true ∧ m.get_value = v := by
      intro c nc hor hgetc
      have hstep : Step t a c := ⟨n, hget, hleaf', hor⟩
      have hreachc : Reaches t t.root c := hreach.tail hstep
      have hssub : ReachSet t c ⊂ ReachSet t a := by
        have hsub : ReachSet t c ⊆ ReachSet t a :=
          fun b hb => Relation.ReflTransGen.head hstep hb
        have hnotmem : a ∉ ReachSet t c := by
          intro hca
          exact hacyc a hreach (Relation.TransGen.head' hstep hca)
        exact lt_of_le_not_le hsub (fun hsub2 => hnotmem (hsub2 Relation.ReflTransGen.refl))
      have hlt : (ReachSet t c).ncard < (ReachSet t a).ncard :=
        Set.ncard_lt_ncard hssub hfin
      exact ih c nc hgetc hreachc (by omega)
    by_cases hqlt : q < n.split_condition
    · obtain ⟨v, hrun, hwit⟩ := hgo l nl (Or.inl hL) hnl
      refine ⟨v, ?_, hwit⟩
      simp [Tree.predictAux, hleaf', hq, hqlt, hL, hnl, hrun]
    · obtain ⟨v, hrun, hwit⟩ := hgo r nr (Or.inr hR) hnr
      refine ⟨v, ?_, hwit⟩
      simp [Tree.predictAux, hleaf', hq, hqlt, hR, hnr, hrun]

theorem NodeMap.get_head (k : Nat) (n : TreeNode) (rest : NodeMap) :
    NodeMap.get ((k, n) :: rest) k = some n := by
  simp [NodeMap.get, List.find?]

/-- A valid tree has its root in the node map. -/
theorem valid_root_mem {t : Tree} (hv : ValidTree t) :
    ∃ rn, t.node_map.get t.root = some rn := by
  obtain ⟨hne, -, -, hall⟩ := hv
  obtain ⟨⟨k, n0⟩, rest, hml⟩ := List.exists_cons_of_ne_nil hne
  have hk : t.node_map.get k = some n0 := by
    rw [hml]; exact NodeMap.get_head k n0 rest
  have hreach := hall k n0 hk
  rcases Relation.ReflTransGen.cases_head hreach with heq | ⟨c, hstep, -⟩
  · exact ⟨n0, by rw [heq]; exact hk⟩
  · obtain ⟨nr, hnr, -, -⟩ := hstep
    exact ⟨nr, hnr⟩

/-- C6: on a valid tree (non-empty map, children present, reachable part
acyclic, no orphans) and a feature vector whose consulted entries exist and
are not NaN, `Tree::predict` terminates — fuel `size + 1` already finishes
the loop — and returns the `value` of some leaf stored in the tree. -/
theorem valid_tree_predict_terminates :
    ∀ (t : Tree) (x : List (Option ℚ)), ValidTree t → FeatureOk t x →
    ∃ v, Tree.predict t x (t.node_map.size + 1) = some (Except.ok v) ∧
      ∃ j m, t.node_map.get j = some m ∧ m.is_leaf = true ∧ m.get_value = v := by
  intro t x hv hx
  obtain ⟨rn, hroot⟩ := valid_root_mem hv
  have hcard : (ReachSet t t.root).ncard < t.node_map.size + 1 := by
    have h₁ : ReachSet t t.root ⊆ keySet t :=
      reachSet_subset_keySet hv.2.1 ⟨rn, hroot⟩
    have h₂ := Set.ncard_le_ncard h₁ (keySet_finite t)
    have h₃ := keySet_ncard_le t
    omega
  obtain ⟨v, hrun, hwit⟩ :=
    predictAux_reaches_leaf hv hx (t.node_map.size + 1) t.root rn hroot
      Relation.ReflTransGen.refl hcard
  exact ⟨v, by simp [Tree.predict, hroot, hrun], hwit⟩

/-- A one-leaf tree, used to witness the C6 theorem. -/
def leafTree : Tree := Tree.new [(0, ⟨0, 0, 0, none, none, 7⟩)] 0

theorem leafTree_get {i : Nat} {n : TreeNode}
    (h : leafTree.node_map.get i = some n) :
    i = 0 ∧ n = ⟨0, 0, 0, none, none, 7⟩ := by
  by_cases h0 : i = 0
  · subst h0
    simp [leafTree, Tree.new, NodeMap.get, List.find?] at h
    exact ⟨rfl, h.symm⟩
  · exfalso
    have hne : (0 : Nat) ≠ i := fun hh => h0 hh.symm
    simp [leafTree, Tree.new, NodeMap.get, List.find?, hne] at h

theorem leafTree_no_step : ∀ a b, ¬ Step leafTree a b := by
  rintro a b ⟨n, hget, hleaf, -⟩
  obtain ⟨-, hn⟩ := leafTree_get hget
  subst hn
  simp [TreeNode.is_leaf] at hleaf

theorem leafTree_valid : ValidTree leafTree := by
  refine ⟨by simp [leafTree, Tree.new], ?_, ?_, ?_⟩
  · intro i n hget hleaf
    obtain ⟨-, hn⟩ := leafTree_get hget
    subst hn
    simp [TreeNode.is_leaf] at hleaf
  · intro a _ htg
    cases htg with
    | single h => exact leafTree_no_step _ _ h
    | tail _ h => exact leafTree_no_step _ _ h
  · intro i n hget
    obtain ⟨hi, -⟩ := leafTree_get hget
    subst hi
    exact Relation.ReflTransGen.refl

theorem leafTree_featureOk : FeatureOk leafTree [] := by
  intro i n _ hget hleaf
  obtain ⟨-, hn⟩ := leafTree_get hget
  subst hn
  simp [TreeNode.is_leaf] at hleaf

/-- Witness for C6: the theorem applied to the one-leaf tree. -/
theorem valid_tree_predict_terminates_witness :
    ∃ v, Tree.predict leafTree [] (leafTree.node_map.size + 1) = some (Except.ok v) ∧
      ∃ j m, leafTree.node_map.get j = some m ∧ m.is_leaf = true ∧ m.get_value = v :=
  valid_tree_predict_terminates leafTree [] leafTree_valid leafTree_featureOk

/-! ## Format A importer theorems (C4, C5) -/

theorem zip5_get? {α β γ δ ε : Type} :
    ∀ (as : List α) (bs : List β) (cs : List γ) (ds : List δ) (es : List ε) (i : Nat),
      (zip5 as bs cs ds es).get? i =
        (as.get? i).bind (fun a => (bs.get? i).bind (fun b => (cs.get? i).bind
          (fun c => (ds.get? i).bind (fun d => (es.get? i).map
            (fun e => (a, b, c, d, e)))))) := by
  intro as
  induction as with
  | nil => intro bs cs ds es i; simp [zip5]
  | cons a as ih =>
    intro bs cs ds es i
    cases bs with
    | nil => simp [zip5]
    | cons b bs =>
      cases cs with
      | nil => simp [zip5]
      | cons c cs =>
        cases ds with
        | nil => simp [zip5]
        | cons d ds =>
          cases es with
          | nil => simp [zip5]
          | cons e es =>
            cases i with
            | zero => simp [zip5]
            | succ i => simpa [zip5] using ih bs cs ds es i

theorem zip5_mem {α β γ δ ε : Type} :
    ∀ {as : List α} {bs : List β} {cs : List γ} {ds : List δ} {es : List ε}
      {p : α × β × γ × δ × ε}, p ∈ zip5 as bs cs ds es →
      p.1 ∈ as ∧ p.2.1 ∈ bs ∧ p.2.2.1 ∈ cs ∧ p.2.2.2.1 ∈ ds ∧ p.2.2.2.2 ∈ es := by
  intro as
  induction as with
  | nil => intro bs cs ds es p h; simp [zip5] at h
  | cons a as ih =>
    intro bs cs ds es p h
    cases bs with
    | nil => simp [zip5] at h
    | cons b bs =>
      cases cs with
      | nil => simp [zip5] at h
      | cons c cs =>
        cases ds with
        | nil => simp [zip5] at h
        | cons d ds =>
          cases es with
          | nil => simp [zip5] at h
          | cons e es =>
            rcases List.mem_cons.mp h with h | h
            · subst h; simp
            · obtain ⟨h1, h2, h3, h4, h5⟩ := ih h
              exact ⟨List.mem_cons_of_mem _ h1, List.mem_cons_of_mem _ h2,
                List.mem_cons_of_mem _ h3, List.mem_cons_of_mem _ h4,
                List.mem_cons_of_mem _ h5⟩

theorem xgbNodes_get? (r : TreeRecord) {i : Nat} {w : ℚ} {lc rc si : Int} {sc : ℚ}
    (h1 : r.base_weights.get? i = some w)
    (h2 : r.left_children.get? i = some lc)
    (h3 : r.right_children.get? i = some rc)
    (h4 : r.split_indices.get? i = some si)
    (h5 : r.split_conditions.get? i = some sc) :
    (xgbNodes r).get? i = some (xgbNode (i, (w, lc, rc, si, sc))) := by
  unfold xgbNodes
  rw [List.get?_map, List.get?_enum, zip5_get?, h1, h2, h3, h4, h5]
  rfl

theorem NodeMap.insert_mem {m : NodeMap} {k : Nat} {v : TreeNode} {p : Nat × TreeNode}
    (h : p ∈ m.insert k v) : p ∈ m ∨ p = (k, v) := by
  unfold NodeMap.insert at h
  split at h
  · obtain ⟨q, hq, hpq⟩ := List.mem_map.mp h
    by_cases hqk : q.1 = k
    · right; rw [← hpq, if_pos hqk]
    · left; rw [← hpq, if_neg hqk]; exact hq
  · rcases List.mem_append.mp h with h | h
    · exact Or.inl h
    · right; simpa using h

theorem NodeMap.ofList_mem {l : List (Nat × TreeNode)} {p : Nat × TreeNode}
    (h : p ∈ NodeMap.ofList l) : p ∈ l := by
  unfold NodeMap.ofList at h
  have main : ∀ (l2 : List (Nat × TreeNode)) (acc : NodeMap),
      p ∈ l2.foldl (fun m q => m.insert q.1 q.2) acc → p ∈ acc ∨ p ∈ l2 := by
    intro l2
    induction l2 with
    | nil => intro acc h2; exact Or.inl h2
    | cons q l2 ih =>
      intro acc h2
      rcases ih _ h2 with h3 | h3
      · rcases NodeMap.insert_mem h3 with h4 | h4
        · exact Or.inl h4
        · right
          rw [h4]
          exact List.mem_cons_self _ _
      · exact Or.inr (List.mem_cons_of_mem _ h3)
  rcases main l [] h with h | h
  · simp at h
  · exact h

theorem insertByKey_mem {n : TreeNode} :
    ∀ {l : List TreeNode} {a : TreeNode}, a ∈ insertByKey n l → a = n ∨ a ∈ l := by
  intro l
  induction l with
  | nil => intro a h; simp [insertByKey] at h; exact Or.inl h
  | cons m ms ih =>
    intro a h
    simp only [insertByKey] at h
    split at h
    · rcases List.mem_cons.mp h with h | h
      · exact Or.inl h
      · exact Or.inr h
    · rcases List.mem_cons.mp h with h | h
      · exact Or.inr (h ▸ List.mem_cons_self m ms)
      · rcases ih h with h | h
        · exact Or.inl h
        · exact Or.inr (List.mem_cons_of_mem _ h)

theorem sortByKey_mem : ∀ {l : List TreeNode} {a : TreeNode},
    a ∈ sortByKey l → a ∈ l := by
  intro l
  induction l with
  | nil => intro a h; simp [sortByKey] at h
  | cons m ms ih =>
    intro a h
    simp only [sortByKey, List.foldr_cons] at h
    rcases insertByKey_mem h with h | h
    · exact h ▸ List.mem_cons_self m ms
    · exact List.mem_cons_of_mem _ (ih h)

theorem from_nodes_mem {nodes : List TreeNode} {t : Tree}
    (h : Tree.from_nodes nodes = some t) {k : Nat} {node : TreeNode}
    (hget : t.node_map.get k = some node) : node ∈ nodes := by
  unfold Tree.from_nodes at h
  rcases hs : sortByKey nodes with _ | ⟨n, rest⟩
  · rw [hs] at h; exact absurd h (by simp)
  · rw [hs] at h
    have ht : t = Tree.new (NodeMap.ofList ((n :: rest).map (fun m => (m.id, m)))) n.id :=
      (Option.some_inj.mp h).symm
    rw [ht] at hget
    have hmem := NodeMap.ofList_mem (NodeMap.get_mem hget)
    obtain ⟨m, hm, hmk⟩ := List.mem_map.mp hmem
    have : m = node := congrArg Prod.snd hmk
    subst this
    exact sortByKey_mem (hs ▸ hm)

theorem intToUsize_eq_toNat {c : Int} (h0 : 0 ≤ c) (h1 : c < 2 ^ 64) :
    intToUsize c = c.toNat := by
  unfold intToUsize
  rw [Int.emod_eq_of_lt h0 h1]

/-- C4: in `TreeRecord::parse`, a child array entry becomes a present child
reference at node id `v` exactly when `v > 0` (the `≥ 0` interpretation is
not used); consequently node id 0 never appears as any node's child in the
parsed tree.  The `natAbs < 2^31` hypotheses state that the entries are in
`i32` range, as in the source where the arrays are `Vec<i32>`. -/
theorem xgb_child_present_iff_positive :
    (∀ (r : TreeRecord) (i : Nat) (w : ℚ) (lc rc si : Int) (sc : ℚ),
      r.base_weights.get? i = some w →
      r.left_children.get? i = some lc →
      r.right_children.get? i = some rc →
      r.split_indices.get? i = some si →
      r.split_conditions.get? i = some sc →
      lc.natAbs < 2 ^ 31 → rc.natAbs < 2 ^ 31 →
      ∃ node, (xgbNodes r).get? i = some node ∧
        node.left = (if 0 < lc then some lc.toNat else none) ∧
        node.right = (if 0 < rc then some rc.toNat else none)) ∧
    (∀ (r : TreeRecord) (t : Tree),
      (∀ c ∈ r.left_children, c.natAbs < 2 ^ 31) →
      (∀ c ∈ r.right_children, c.natAbs < 2 ^ 31) →
      TreeRecord.parse r = some t →
      ∀ k node, t.node_map.get k = some node →
        node.left ≠ some 0 ∧ node.right ≠ some 0) := by
  constructor
  · intro r i w lc rc si sc h1 h2 h3 h4 h5 hlc hrc
    refine ⟨xgbNode (i, (w, lc, rc, si, sc)), xgbNodes_get? r h1 h2 h3 h4 h5, ?_, ?_⟩
    · show (if 0 < lc then some (intToUsize lc) else none) = _
      by_cases hpos : 0 < lc
      · rw [if_pos hpos, if_pos hpos, intToUsize_eq_toNat (le_of_lt hpos) (by omega)]
      · rw [if_neg hpos, if_neg hpos]
    · show (if 0 < rc then some (intToUsize rc) else none) = _
      by_cases hpos : 0 < rc
      · rw [if_pos hpos, if_pos hpos, intToUsize_eq_toNat (le_of_lt hpos) (by omega)]
      · rw [if_neg hpos, if_neg hpos]
  · intro r t hlb hrb hparse k node hget
    have hmem : node ∈ xgbNodes r := from_nodes_mem hparse hget
    obtain ⟨q, hq, hqn⟩ := List.mem_map.mp hmem
    have hzip : q.2 ∈ zip5 r.base_weights r.left_children r.right_children
        r.split_indices r.split_conditions := by
      have := List.mem_enum_iff_get?.mp hq
      exact List.get?_mem this
    obtain ⟨-, hlcmem, hrcmem, -, -⟩ := zip5_mem hzip
    constructor
    · intro habs
      rw [← hqn] at habs
      have hleft : (if 0 < q.2.2.1 then some (intToUsize q.2.2.1) else none) = some 0 :=
        habs
      by_cases hpos : 0 < q.2.2.1
      · rw [if_pos hpos, Option.some_inj,
          intToUsize_eq_toNat (le_of_lt hpos) (by have := hlb _ hlcmem; omega)] at hleft
        omega
      · rw [if_neg hpos] at hleft; exact Option.noConfusion hleft
    · intro habs
      rw [← hqn] at habs
      have hright : (if 0 < q.2.2.2.1 then some (intToUsize q.2.2.2.1) else none) = some 0 :=
        habs
      by_cases hpos : 0 < q.2.2.2.1
      · rw [if_pos hpos, Option.some_inj,
          intToUsize_eq_toNat (le_of_lt hpos) (by have := hrb _ hrcmem; omega)] at hright
        omega
      · rw [if_neg hpos] at hright; exact Option.noConfusion hright

/-- A concrete record for the C4 witness. -/
def xgbR4 : TreeRecord := ⟨[7, 8], [1, -1], [1, -1], [0, 0], [5, 9]⟩

/-- The tree `TreeRecord::parse` produces from `xgbR4`. -/
def xgbT4 : Tree :=
  Tree.new [(0, ⟨0, 0, 5, some 1, some 1, 5⟩), (1, ⟨1, 0, 9, none, none, 9⟩)] 0

/-- Witness for C4: both parts instantiated on `xgbR4`. -/
theorem xgb_child_present_iff_positive_witness :
    (∃ node, (xgbNodes xgbR4).get? 0 = some node ∧
      node.left = (if (0 : Int) < 1 then some (Int.toNat 1) else none) ∧
      node.right = (if (0 : Int) < 1 then some (Int.toNat 1) else none)) ∧
    ((⟨0, 0, 5, some 1, some 1, 5⟩ : TreeNode).left ≠ some 0 ∧
      (⟨0, 0, 5, some 1, some 1, 5⟩ : TreeNode).right ≠ some 0) :=
  ⟨xgb_child_present_iff_positive.1 xgbR4 0 7 1 1 0 5 rfl rfl rfl rfl rfl
      (by decide) (by decide),
   xgb_child_present_iff_positive.2 xgbR4 xgbT4 (by decide) (by decide) (by decide)
      0 ⟨0, 0, 5, some 1, some 1, 5⟩ (by decide)⟩

theorem xgbNodes_ignores_first :
    ∀ (as as2 : List ℚ) (bs cs ds : List Int) (es : List ℚ) (k : Nat),
      as.length = as2.length →
      ((zip5 as bs cs ds es).enumFrom k).map xgbNode =
        ((zip5 as2 bs cs ds es).enumFrom k).map xgbNode := by
  intro as
  induction as with
  | nil =>
    intro as2 bs cs ds es k hlen
    obtain rfl : as2 = [] := by
      cases as2 with
      | nil => rfl
      | cons _ _ => simp at hlen
    rfl
  | cons a as ih =>
    intro as2 bs cs ds es k hlen
    cases as2 with
    | nil => simp at hlen
    | cons a2 as2 =>
      cases bs with
      | nil => rfl
      | cons b bs =>
        cases cs with
        | nil => rfl
        | cons c cs =>
          cases ds with
          | nil => rfl
          | cons d ds =>
            cases es with
            | nil => rfl
            | cons e es =>
              have hlen2 : as.length = as2.length := by simpa using hlen
              simp only [zip5, List.enumFrom, List.map]
              exact congrArg₂ List.cons rfl (ih as2 bs cs ds es (k + 1) hlen2)

/-- C5: the value a parsed node carries (for internal and leaf positions
alike) is `split_conditions[i]`; `base_weights` is ignored — replacing it by
any same-length array leaves the parsed tree unchanged. -/
theorem xgb_value_is_split_condition :
    (∀ (r : TreeRecord) (i : Nat) (w : ℚ) (lc rc si : Int) (sc : ℚ),
      r.base_weights.get? i = some w →
      r.left_children.get? i = some lc →
      r.right_children.get? i = some rc →
      r.split_indices.get? i = some si →
      r.split_conditions.get? i = some sc →
      ∃ node, (xgbNodes r).get? i = some node ∧ node.value = sc ∧
        node.split_condition = sc) ∧
    (∀ (r : TreeRecord) (w : List ℚ), w.length = r.base_weights.length →
      TreeRecord.parse { r with base_weights := w } = TreeRecord.parse r) := by
  constructor
  · intro r i w lc rc si sc h1 h2 h3 h4 h5
    exact ⟨xgbNode (i, (w, lc, rc, si, sc)), xgbNodes_get? r h1 h2 h3 h4 h5, rfl, rfl⟩
  · intro r w hlen
    have hnodes : xgbNodes { r with base_weights := w } = xgbNodes r := by
      unfold xgbNodes
      have := xgbNodes_ignores_first w r.base_weights r.left_children
        r.right_children r.split_indices r.split_conditions 0 hlen
      simpa [List.enum] using this
    unfold TreeRecord.parse
    rw [hnodes]

/-- A concrete record for the C5 witness. -/
def xgbR5 : TreeRecord := ⟨[41], [-1], [-1], [0], [6]⟩

/-- Witness for C5: the node value at position 0 is `split_conditions[0]`,
and swapping `base_weights` for another single-entry array leaves the parse
unchanged. -/
theorem xgb_value_is_split_condition_witness :
    (∃ node, (xgbNodes xgbR5).get? 0 = some node ∧ node.value = 6 ∧
      node.split_condition = 6) ∧
    TreeRecord.parse { xgbR5 with base_weights := [0] } = TreeRecord.parse xgbR5 :=
  ⟨xgb_value_is_split_condition.1 xgbR5 0 41 (-1) (-1) 0 6 rfl rfl rfl rfl rfl,
   xgb_value_is_split_condition.2 xgbR5 [0] (by decide)⟩

/-! ## Format B node assembly (C8) -/

theorem collectOpt_eq_some_map {α β : Type} (f : α → Option β) (g : α → β) :
    ∀ (l : List α), (∀ a ∈ l, f a = some (g a)) → collectOpt f l = some (l.map g) := by
  intro l
  induction l with
  | nil => intro _; rfl
  | cons a l ih =>
    intro h
    have ha := h a (List.mem_cons_self a l)
    have hrest := ih (fun b hb => h b (List.mem_cons_of_mem _ hb))
    simp [collectOpt, ha, hrest]

theorem get?_eq_some_getD {α : Type} {l : List α} {i : Nat} (d : α)
    (h : i < l.length) : l.get? i = some (l.getD i d) := by
  rw [List.get?_eq_getElem?, List.getElem?_eq_getElem h, List.getD_eq_getElem l d h]

/-- The internal node `lgbmNodes` builds at position `i`. -/
def lgbmInternal (r : LGBMTreeRecord) (i : Nat) : TreeNode :=
  ⟨i, r.split_features.getD i 0, r.thresholds.getD i 0,
    some (lgbmChildId r.split_features.length (r.left_children.getD i 0)),
    some (lgbmChildId r.split_features.length (r.right_children.getD i 0)), 0⟩

/-- C8: a child reference `c ≥ 0` resolves to internal node id `c` and
`c < 0` to leaf node id `num_internal + (-c - 1)`; when the record's arrays
are long enough to index, the assembled node list has one internal node per
position, followed by exactly one leaf node per `leaf_value` entry at id
`num_internal + j` carrying that value and no children. -/
theorem lgbm_node_assembly :
    (∀ (k : Nat) (c : Int), c.natAbs < 2 ^ 31 →
      (0 ≤ c → lgbmChildId k c = c.toNat) ∧
      (c < 0 → lgbmChildId k c = k + (-c - 1).toNat)) ∧
    (∀ (r : LGBMTreeRecord),
      r.split_features.length ≤ r.thresholds.length →
      r.split_features.length ≤ r.left_children.length →
      r.split_features.length ≤ r.right_children.length →
      ∃ ns, lgbmNodes r = some ns ∧
        ns.length = r.split_features.length + r.leaf_values.length ∧
        (∀ i, i < r.split_features.length → ns.get? i = some (lgbmInternal r i)) ∧
        (∀ j, j < r.leaf_values.length →
          ns.get? (r.split_features.length + j) =
            some ⟨r.split_features.length + j, 0, 0, none, none,
              r.leaf_values.getD j 0⟩)) := by
  constructor
  · intro k c hc
    constructor
    · intro h0
      unfold lgbmChildId
      rw [if_pos h0]
      exact intToUsize_eq_toNat h0 (by omega)
    · intro hneg
      unfold lgbmChildId
      rw [if_neg (by omega)]
      have : intToUsize (-c) = (-c).toNat := intToUsize_eq_toNat (by omega) (by omega)
      rw [this]
      omega
  · intro r hth hlc hrc
    have hmapM : collectOpt
        (fun i =>
          match r.left_children.get? i, r.right_children.get? i,
              r.thresholds.get? i, r.split_features.get? i with
          | some lc, some rc, some th, some sf =>
              some { id := i
                     split_index := sf
                     split_condition := th
                     left := some (lgbmChildId r.split_features.length lc)
                     right := some (lgbmChildId r.split_features.length rc)
                     value := 0 : TreeNode }
          | _, _, _, _ => none) (List.range r.split_features.length) =
        some ((List.range r.split_features.length).map (lgbmInternal r)) := by
      apply collectOpt_eq_some_map
      intro i hi
      have hik : i < r.split_features.length := List.mem_range.mp hi
      rw [get?_eq_some_getD 0 (by omega), get?_eq_some_getD 0 (by omega),
        get?_eq_some_getD 0 (by omega), get?_eq_some_getD 0 (by omega)]
      rfl
    refine ⟨(List.range r.split_features.length).map (lgbmInternal r) ++
      r.leaf_values.enum.map
        (fun p => ⟨r.split_features.length + p.1, 0, 0, none, none, p.2⟩),
      ?_, ?_, ?_, ?_⟩
    · unfold lgbmNodes
      rw [hmapM]
    · simp
    · intro i hik
      rw [List.get?_append (by simpa using hik), List.get?_map,
        List.get?_range hik]
      rfl
    · intro j hj
      rw [List.get?_append_right (by simp), List.get?_map, List.get?_enum]
      simp only [List.length_map, List.length_range, Nat.add_sub_cancel_left]
      rw [get?_eq_some_getD 0 hj]
      rfl

/-- A concrete record for the C8 witness. -/
def lgbmR8 : LGBMTreeRecord := ⟨[0], [5], [-1], [-2], [10, 20]⟩

/-- Witness for C8: child-id resolution at `c = 3` and `c = -1`, and the
node list assembled from `lgbmR8`. -/
theorem lgbm_node_assembly_witness :
    lgbmChildId 2 3 = Int.toNat 3 ∧
    lgbmChildId 2 (-1) = 2 + (-(-1 : Int) - 1).toNat ∧
    ∃ ns, lgbmNodes lgbmR8 = some ns ∧
      ns.length = lgbmR8.split_features.length + lgbmR8.leaf_values.length ∧
      (∀ i, i < lgbmR8.split_features.length →
        ns.get? i = some (lgbmInternal lgbmR8 i)) ∧
      (∀ j, j < lgbmR8.leaf_values.length →
        ns.get? (lgbmR8.split_features.length + j) =
          some ⟨lgbmR8.split_features.length + j, 0, 0, none, none,
            lgbmR8.leaf_values.getD j 0⟩) :=
  ⟨(lgbm_node_assembly.1 2 3 (by decide)).1 (by decide),
   (lgbm_node_assembly.1 2 (-1) (by decide)).2 (by decide),
   lgbm_node_assembly.2 lgbmR8 (by decide) (by decide) (by decide)⟩

/-! ## Empty node lists panic (C9) -/

/-- A Format B file with one section whose five directive arrays are all
empty: every directive is present, so the section parses, but the resulting
record has no nodes. -/
def emptySectionLines : List RStr :=
  ["num_tree_per_iteration=1".data, "Tree=0".data, "split_feature=".data,
   "threshold=".data, "left_child=".data, "right_child=".data, "leaf_value=".data]

/-- C9: `Tree::from_nodes` on an empty vector panics (modelled `none`)
instead of returning an error, and both importers reach it: a Format A tree
record with empty parallel arrays, and a Format B section whose directive
arrays are all empty — which a full Format B import accepts up to the panic
(`Except.ok none` is "scan succeeded, conversion panicked"). -/
theorem from_nodes_empty_panics :
    Tree.from_nodes [] = none ∧
    TreeRecord.parse ⟨[], [], [], [], []⟩ = none ∧
    lgbmTreeFrom ⟨[], [], [], [], []⟩ = none ∧
    parseTreeSection emptySectionLines 1 = some ⟨[], [], [], [], []⟩ ∧
    read_lightgbm_model emptySectionLines = Except.ok none := by
  refine ⟨rfl, rfl, rfl, by decide, by decide⟩

/-! ## Malformed Format B sections are skipped, not fatal (C3) -/

/-- A Format B file with one complete section (`Tree=0`) and one section
(`Tree=1`) that is missing four of the five required directives. -/
def badSectionLines : List RStr :=
  ["num_tree_per_iteration=1".data,
   "Tree=0".data, "split_feature=0".data, "threshold=5".data, "left_child=-1".data,
   "right_child=-2".data, "leaf_value=1 2".data,
   "".data,
   "Tree=1".data, "split_feature=0".data]

/-- Counterexample to C3: the `Tree=1` section of `badSectionLines` fails to
parse (a required directive is missing), yet the import does not abort with
an error: it returns a model holding just the well-formed section. -/
theorem lgbm_bad_section_not_fatal :
    parseTreeSection badSectionLines 8 = none ∧
    read_lightgbm_txt badSectionLines =
      Except.ok (some [[⟨[0], [5], [-1], [-2], [1, 2]⟩]]) := by
  refine ⟨by decide, by decide⟩

/-- The records the line scan keeps: for each line opening a `Tree=` section,
the section's parse result, when it parses. -/
def treeRecordsOf (lines : List RStr) : List LGBMTreeRecord :=
  lines.enum.filterMap
    (fun p => if startsWithR (trimR p.2) ("Tree=".data) then
        parseTreeSection lines p.1
      else none)

theorem scanFold (lines : List RStr) :
    ∀ (suffix : List (Nat × RStr)) (acc : List LGBMTreeRecord × Option Nat)
      (records : List LGBMTreeRecord) (numOpt : Option Nat),
      suffix.foldlM (scanStep lines) acc = Except.ok (records, numOpt) →
      records = acc.1 ++ suffix.filterMap
        (fun p => if startsWithR (trimR p.2) ("Tree=".data) then
            parseTreeSection lines p.1
          else none) := by
  intro suffix
  induction suffix with
  | nil =>
    intro acc records numOpt h
    simp only [List.foldlM_nil] at h
    have : acc = (records, numOpt) := by
      simpa [pure, Except.pure] using h
    simp [this]
  | cons p suffix ih =>
    intro acc records numOpt h
    rw [List.foldlM_cons] at h
    rcases hstep : scanStep lines acc p with e | acc2
    · rw [hstep] at h
      have h3 : (Except.error e : Except LGBMErr (List LGBMTreeRecord × Option Nat)) =
          Except.ok (records, numOpt) := h
      exact Except.noConfusion h3
    · rw [hstep] at h
      have h2 : suffix.foldlM (scanStep lines) acc2 = Except.ok (records, numOpt) := by
        simpa [Except.bind] using h
      have hrec := ih acc2 records numOpt h2
      unfold scanStep at hstep
      by_cases hempty : trimR p.2 = []
      · rw [if_pos hempty] at hstep
        have hacc : acc2 = acc := by simpa using hstep.symm
        have hfalse : (if startsWithR (trimR p.2) ("Tree=".data) then
            parseTreeSection lines p.1 else none) = none := by
          rw [hempty]; rfl
        simp [List.filterMap_cons, hfalse, hrec, hacc]
      · rw [if_neg hempty] at hstep
        by_cases htree : startsWithR (trimR p.2) ("Tree=".data) = true
        · rw [if_pos htree] at hstep
          rcases hparse : parseTreeSection lines p.1 with _ | rec
          · rw [hparse] at hstep
            have hacc : acc2 = acc := by simpa using hstep.symm
            simp [List.filterMap_cons, htree, hparse, hrec, hacc]
          · rw [hparse] at hstep
            have hacc : acc2 = (acc.1 ++ [rec], acc.2) := by simpa using hstep.symm
            simp [List.filterMap_cons, htree, hparse, hrec, hacc]
        · rw [if_neg htree] at hstep
          have hfalse : (if startsWithR (trimR p.2) ("Tree=".data) then
              parseTreeSection lines p.1 else none) = none := by
            simp [Bool.not_eq_true] at htree
            simp [htree]
          rcases hsplit : splitOnceEq (trimR p.2) with _ | kv
          · rw [hsplit] at hstep
            have hacc : acc2 = acc := by simpa using hstep.symm
            simp [List.filterMap_cons, hfalse, hrec, hacc]
          · rw [hsplit] at hstep
            dsimp only at hstep
            by_cases hkey : kv.1 = ("num_tree_per_iteration".data)
            · rw [if_pos hkey] at hstep
              rcases hnum : parseUsize kv.2 with _ | n
              · rw [hnum] at hstep; simp at hstep
              · rw [hnum] at hstep
                have hacc : acc2 = (acc.1, some n) := by simpa using hstep.symm
                simp [List.filterMap_cons, hfalse, hrec, hacc]
            · rw [if_neg hkey] at hstep
              have hacc : acc2 = acc := by simpa using hstep.symm
              simp [List.filterMap_cons, hfalse, hrec, hacc]

/-- Amended C3: a `Tree=` section missing a required directive or whose
array parse fails is silently skipped: whenever the scan completes without
an error, the records it kept are exactly the parse results of the sections
that do parse, in order; a failed section contributes nothing and does not
abort the import, which proceeds with the remaining well-formed sections (as
on `badSectionLines`, where the broken `Tree=1` section is dropped and the
remaining good tree is imported successfully). -/
theorem lgbm_bad_section_skipped :
    (∀ (lines : List RStr) (records : List LGBMTreeRecord) (numOpt : Option Nat),
      scanLoop lines = Except.ok (records, numOpt) → records = treeRecordsOf lines) ∧
    read_lightgbm_txt badSectionLines =
      Except.ok (some [[⟨[0], [5], [-1], [-2], [1, 2]⟩]]) := by
  constructor
  · intro lines records numOpt h
    have := scanFold lines lines.enum ([], none) records numOpt h
    simpa [treeRecordsOf] using this
  · decide

/-- Witness for the amended C3 theorem, on `badSectionLines`. -/
theorem lgbm_bad_section_skipped_witness :
    [(⟨[0], [5], [-1], [-2], [1, 2]⟩ : LGBMTreeRecord)] = treeRecordsOf badSectionLines :=
  lgbm_bad_section_skipped.1 badSectionLines [⟨[0], [5], [-1], [-2], [1, 2]⟩]
    (some 1) (by decide)

/-! ## Format B grouping by position (C7) and trailing-record discard (C10) -/

/-- A Format B file with `num_tree_per_iteration=2` and four tree sections
(two boosting rounds), with distinct leaf values to track the grouping. -/
def multiLines : List RStr :=
  ["num_tree_per_iteration=2".data,
   "Tree=0".data, "split_feature=0".data, "threshold=5".data, "left_child=-1".data,
   "right_child=-2".data, "leaf_value=1 2".data, "".data,
   "Tree=1".data, "split_feature=0".data, "threshold=5".data, "left_child=-1".data,
   "right_child=-2".data, "leaf_value=3 4".data, "".data,
   "Tree=2".data, "split_feature=0".data, "threshold=5".data, "left_child=-1".data,
   "right_child=-2".data, "leaf_value=5 6".data, "".data,
   "Tree=3".data, "split_feature=0".data, "threshold=5".data, "left_child=-1".data,
   "right_child=-2".data, "leaf_value=7 8".data]

/-- The tree each section of `multiLines` produces (one split at 5.0, two
leaves with values `a` and `b`). -/
def lgbmTreeAB (a b : ℚ) : Tree :=
  Tree.new
    [(0, ⟨0, 0, 5, some 1, some 2, 0⟩),
     (1, ⟨1, 0, 0, none, none, a⟩),
     (2, ⟨2, 0, 0, none, none, b⟩)] 0

theorem flat_index_lt {n k i j : Nat} (hj : j < k) (hi : i < n / k) :
    i * k + j < n := by
  have h1 : (i + 1) * k ≤ n / k * k := Nat.mul_le_mul_right k (by omega)
  have h2 : n / k * k ≤ n := Nat.div_mul_le_self n k
  have h3 : (i + 1) * k = i * k + k := by ring
  omega

/-- C7: the record at flat index `i * k + j` lands in output group `j` at
round position `i`; there are exactly `k` groups; a successful scan with
header value `k ≠ 0` yields exactly those groups; every group becomes a
`Forest` with base value `0.0`, in group order; concretely, `k = 2` over two
boosting rounds yields two forests of two trees each, in round order. -/
theorem lgbm_grouping_by_position :
    (∀ (records : List LGBMTreeRecord) (k j i : Nat), j < k →
      i < records.length / k →
      ∃ group, (groupRecords records k).get? j = some group ∧
        group.get? i = records.get? (i * k + j)) ∧
    (∀ (records : List LGBMTreeRecord) (k : Nat),
      (groupRecords records k).length = k) ∧
    (∀ (lines : List RStr) (records : List LGBMTreeRecord) (k : Nat),
      scanLoop lines = Except.ok (records, some k) → k ≠ 0 →
      read_lightgbm_txt lines = Except.ok (some (groupRecords records k))) ∧
    (∀ (lines : List RStr) (gs : List (List LGBMTreeRecord)) (tgs : List (List Tree)),
      read_lightgbm_txt lines = Except.ok (some gs) →
      collectOpt (fun group => collectOpt lgbmTreeFrom group) gs = some tgs →
      read_lightgbm_model lines = Except.ok (some (MultiOutputForest.new
        (tgs.map (fun ts => Forest.new 0 ts))))) ∧
    read_lightgbm_model multiLines = Except.ok (some (MultiOutputForest.new
      [Forest.new 0 [lgbmTreeAB 1 2, lgbmTreeAB 5 6],
       Forest.new 0 [lgbmTreeAB 3 4, lgbmTreeAB 7 8]])) := by
  refine ⟨?_, ?_, ?_, ?_, by decide⟩
  · intro records k j i hj hi
    refine ⟨(List.range (records.length / k)).map
      (fun i => records.getD (i * k + j) default), ?_, ?_⟩
    · unfold groupRecords
      rw [List.get?_map, List.get?_range hj]
      rfl
    · rw [List.get?_map, List.get?_range hi,
        get?_eq_some_getD default (flat_index_lt hj hi)]
      rfl
  · intro records k
    simp [groupRecords]
  · intro lines records k hscan hk
    unfold read_lightgbm_txt
    rw [hscan]
    dsimp only
    rw [if_neg hk]
  · intro lines gs tgs htxt hconv
    unfold read_lightgbm_model
    rw [htxt]
    dsimp only
    rw [hconv]

/-- Two distinct records for the C7/C10 witnesses. -/
def lgbmRecA : LGBMTreeRecord := ⟨[0], [5], [-1], [-2], [1, 2]⟩

def lgbmRecB : LGBMTreeRecord := ⟨[0], [5], [-1], [-2], [3, 4]⟩

def lgbmRecC : LGBMTreeRecord := ⟨[0], [5], [-1], [-2], [5, 6]⟩

def lgbmRecD : LGBMTreeRecord := ⟨[0], [5], [-1], [-2], [7, 8]⟩

/-- Witness for C7: the positional-grouping fact for flat index
`1 * 1 + 0 = 1` over two records, and the scan-to-grouping fact on
`multiLines`. -/
theorem lgbm_grouping_by_position_witness :
    (∃ group, (groupRecords [lgbmRecA, lgbmRecB] 1).get? 0 = some group ∧
      group.get? 1 = [lgbmRecA, lgbmRecB].get? (1 * 1 + 0)) ∧
    read_lightgbm_txt multiLines = Except.ok (some
      (groupRecords [lgbmRecA, lgbmRecB, lgbmRecC, lgbmRecD] 2)) :=
  ⟨lgbm_grouping_by_position.1 [lgbmRecA, lgbmRecB] 1 0 1 (by decide) (by decide),
   lgbm_grouping_by_position.2.2.1 multiLines [lgbmRecA, lgbmRecB, lgbmRecC, lgbmRecD] 2
     (by decide) (by decide)⟩

/-- A Format B file with `num_tree_per_iteration=2` but three tree sections:
the section count is not a multiple of the header value. -/
def threeSectionLines : List RStr :=
  ["num_tree_per_iteration=2".data,
   "Tree=0".data, "split_feature=0".data, "threshold=5".data, "left_child=-1".data,
   "right_child=-2".data, "leaf_value=1 2".data, "".data,
   "Tree=1".data, "split_feature=0".data, "threshold=5".data, "left_child=-1".data,
   "right_child=-2".data, "leaf_value=3 4".data, "".data,
   "Tree=2".data, "split_feature=0".data, "threshold=5".data, "left_child=-1".data,
   "right_child=-2".data, "leaf_value=5 6".data]

/-- C10: grouping keeps exactly `floor(record_count / k) * k` records — the
trailing records beyond the last complete round are dropped with no error —
and concretely three sections under `k = 2` import successfully as two
one-tree groups, the third section silently discarded. -/
theorem lgbm_trailing_records_discarded :
    (∀ (records : List LGBMTreeRecord) (k : Nat),
      ((groupRecords records k).map List.length).sum = records.length / k * k) ∧
    (∀ (lines : List RStr) (records : List LGBMTreeRecord) (k : Nat),
      scanLoop lines = Except.ok (records, some k) → k ≠ 0 →
      ∃ gs, read_lightgbm_txt lines = Except.ok (some gs) ∧
        (gs.map List.length).sum = records.length / k * k) ∧
    read_lightgbm_txt threeSectionLines = Except.ok (some [[lgbmRecA], [lgbmRecB]]) := by
  have hsum : ∀ (records : List LGBMTreeRecord) (k : Nat),
      ((groupRecords records k).map List.length).sum = records.length / k * k := by
    intro records k
    have hrep : (groupRecords records k).map List.length =
        List.replicate k (records.length / k) := by
      rw [List.eq_replicate_iff]
      constructor
      · simp [groupRecords]
      · intro b hb
        obtain ⟨g, hg, hgb⟩ := List.mem_map.mp hb
        have hg2 : g ∈ (List.range k).map
            (fun j => (List.range (records.length / k)).map
              (fun i => records.getD (i * k + j) default)) := hg
        obtain ⟨j, -, hjg⟩ := List.mem_map.mp hg2
        rw [← hgb, ← hjg]
        simp
    rw [hrep, List.sum_replicate, smul_eq_mul, mul_comm]
  refine ⟨hsum, ?_, by decide⟩
  intro lines records k hscan hk
  refine ⟨groupRecords records k, ?_, hsum records k⟩
  unfold read_lightgbm_txt
  rw [hscan]
  dsimp only
  rw [if_neg hk]

/-- Witness for C10: the discard fact applied to `threeSectionLines`, whose
scan finds three records under `k = 2`. -/
theorem lgbm_trailing_records_discarded_witness :
    ∃ gs, read_lightgbm_txt threeSectionLines = Except.ok (some gs) ∧
      (gs.map List.length).sum = [lgbmRecA, lgbmRecB, lgbmRecC].length / 2 * 2 :=
  lgbm_trailing_records_discarded.2.1 threeSectionLines [lgbmRecA, lgbmRecB, lgbmRecC] 2
    (by decide) (by decide)

end Silva
